import Mathlib

/-!
Verification of the GrindOS temporal state engine.

Shallow embedding of the core of the repository:
* `src/lib/timeUtils.ts` — discipline-day clock (`getDisciplineDay`,
  `getPreviousDisciplineDay`, `msUntilNextReset`);
* `store.ts` (v2 Zustand store) — the authoritative state model
  (`performDailyReset`, `toggleTask`, `toggleCustomTask`, `addCustomTask`,
  `removeCustomTask`, `triggerFailure`, selectors `isDayComplete`,
  `progressPercent`, `lockedTaskIds`).

Modelling conventions:
* A JS `Date` is modelled by its local wall-clock components
  (`LocalInstant`); local time is assumed to be a fixed offset (no DST),
  matching the spec's "local wall-clock time" scope.
* JS objects used as string-keyed records are modelled as association
  lists; `{...m, [k]: v}` updates the existing entry in place or appends,
  `m[k]` is `recLookup?`, and the falsy coalescing `m[k] ?? false` /
  implicit `undefined` falsiness is `lookupB`.
* `Math.round((done / total) * 100)` is modelled with exact rational
  arithmetic and round-half-up (`jsRound`); the IEEE-double stand-in is
  exact except at ties, which no theorem below depends on.
* Store actions that read the ambient clock (`new Date()`,
  `getDisciplineDay()`) take those values as explicit oracle arguments.
-/

namespace GrindOS

/-! ## Calendar model (proleptic Gregorian, as JS `Date` local time) -/

structure LocalDate where
  year : Nat
  month : Nat
  day : Nat
  deriving DecidableEq

/-- Gregorian leap-year rule (what JS `Date` normalization implements). -/
def isLeap (y : Nat) : Bool :=
  y % 4 == 0 && (y % 100 != 0 || y % 400 == 0)

/-- Length of month `m` (1–12) in a year with leap flag `b`; 0 outside 1–12. -/
def monthLength (b : Bool) : Nat → Nat
  | 1 => 31
  | 2 => if b then 29 else 28
  | 3 => 31
  | 4 => 30
  | 5 => 31
  | 6 => 30
  | 7 => 31
  | 8 => 31
  | 9 => 30
  | 10 => 31
  | 11 => 30
  | 12 => 31
  | _ => 0

def daysInMonth (y m : Nat) : Nat := monthLength (isLeap y) m

def ValidDate (d : LocalDate) : Prop :=
  1 ≤ d.year ∧ 1 ≤ d.month ∧ d.month ≤ 12 ∧ 1 ≤ d.day ∧ d.day ≤ daysInMonth d.year d.month

instance (d : LocalDate) : Decidable (ValidDate d) := by
  unfold ValidDate; infer_instance

/-- Calendar predecessor: what JS `date.setDate(date.getDate() - 1)` computes. -/
def prevDate (d : LocalDate) : LocalDate :=
  if 2 ≤ d.day then { d with day := d.day - 1 }
  else if 2 ≤ d.month then { d with month := d.month - 1, day := daysInMonth d.year (d.month - 1) }
  else { year := d.year - 1, month := 12, day := 31 }

/-- Calendar successor: what JS `date.setDate(date.getDate() + 1)` computes. -/
def nextDate (d : LocalDate) : LocalDate :=
  if d.day < daysInMonth d.year d.month then { d with day := d.day + 1 }
  else if d.month < 12 then { d with month := d.month + 1, day := 1 }
  else { year := d.year + 1, month := 1, day := 1 }

/-- Days of the year strictly before month `m` (leap flag `b`). -/
def daysBeforeMonth (b : Bool) : Nat → Nat
  | 0 => 0
  | m + 1 => daysBeforeMonth b m + monthLength b m

/-- Leap years in `[0, y)`. -/
def leapsBefore (y : Nat) : Nat :=
  ((y + 3) / 4 + (y + 399) / 400) - (y + 99) / 100

/-- Linear day index of a date (days since the epoch 0000-01-01). -/
def dayNumber (d : LocalDate) : Nat :=
  365 * d.year + leapsBefore d.year + daysBeforeMonth (isLeap d.year) d.month + (d.day - 1)

/-- A wall-clock instant, by its local calendar components (as read off a JS
`Date` via `getFullYear`/`getMonth`/`getDate`/`getHours`/...). -/
structure LocalInstant where
  date : LocalDate
  hour : Nat
  minute : Nat
  second : Nat
  ms : Nat
  deriving DecidableEq

def ValidInstant (t : LocalInstant) : Prop :=
  ValidDate t.date ∧ t.hour < 24 ∧ t.minute < 60 ∧ t.second < 60 ∧ t.ms < 1000

instance (t : LocalInstant) : Decidable (ValidInstant t) := by
  unfold ValidInstant; infer_instance

def timeOfDayMs (t : LocalInstant) : Nat :=
  t.hour * 3600000 + t.minute * 60000 + t.second * 1000 + t.ms

/-- What `Date.prototype.getTime` yields, up to the fixed epoch offset:
a linearization of local wall-clock instants in milliseconds. -/
def epochMs (t : LocalInstant) : Nat :=
  dayNumber t.date * 86400000 + timeOfDayMs t

/-! ## timeUtils.ts -/

/-- The hour at which the discipline day resets (local time). -/
def RESET_HOUR : Nat := 4

/-- Two-digit padding: `String(n).padStart(2, "0")`. -/
def pad2 (n : Nat) : String :=
  let s := toString n
  if s.length < 2 then "0" ++ s else s

/-- The `${year}-${month}-${day}` template of `getDisciplineDay`. -/
def formatDate (d : LocalDate) : String :=
  toString d.year ++ "-" ++ pad2 d.month ++ "-" ++ pad2 d.day

/-- `getDisciplineDay`: the discipline-day id of an instant. Shifts back one
calendar day inside the 00:00–03:59 window, then formats `YYYY-MM-DD`. -/
def getDisciplineDay (t : LocalInstant) : String :=
  let adjusted := if t.hour < RESET_HOUR then prevDate t.date else t.date
  formatDate adjusted

/-- Split a character list at `'-'` (the `split("-")` of
`getPreviousDisciplineDay`, at the character level). -/
def splitDash : List Char → List (List Char)
  | [] => [[]]
  | c :: cs =>
    let r := splitDash cs
    if c = '-' then [] :: r
    else
      match r with
      | [] => [[c]]
      | y :: ys => (c :: y) :: ys

/-- `Number(str)` on a nonempty all-digit string; `none` otherwise. -/
def charsToNat? (cs : List Char) : Option Nat :=
  if cs ≠ [] ∧ cs.all (fun c => c.isDigit) then
    some (cs.foldl (fun n c => n * 10 + (c.toNat - 48)) 0)
  else none

/-- Parse `YYYY-MM-DD` (the `split("-").map(Number)` step of
`getPreviousDisciplineDay`); components of malformed input default to 0.
Only the well-formed day ids the program produces ever reach this. -/
def parseDayId (s : String) : LocalDate :=
  let parts := splitDash s.data
  { year := ((parts.get? 0).bind charsToNat?).getD 0
    month := ((parts.get? 1).bind charsToNat?).getD 0
    day := ((parts.get? 2).bind charsToNat?).getD 0 }

/-- `getPreviousDisciplineDay`: previous day id by calendar arithmetic. -/
def getPreviousDisciplineDay (disciplineDay : String) : String :=
  formatDate (prevDate (parseDayId disciplineDay))

/-- `msUntilNextReset`: milliseconds until the next 04:00 local instant.
The code zeroes seconds/ms and minutes, sets the hour to `RESET_HOUR`, and
moves to the next calendar day when `now >= next`. -/
def msUntilNextReset (now : LocalInstant) : Int :=
  let next0 : LocalInstant := { now with hour := RESET_HOUR, minute := 0, second := 0, ms := 0 }
  let next := if epochMs next0 ≤ epochMs now then { next0 with date := nextDate next0.date } else next0
  (epochMs next : Int) - (epochMs now : Int)

/-- The reversed month-and-day tail of a formatted day id (proof device
for distinguishing formatted dates). -/
def revTail (m d : Nat) : List Char :=
  (pad2 d).data.reverse ++ '-' :: (pad2 m).data.reverse

/-- Membership of an instant in the discipline window that starts at 04:00
on date `D`: either on `D` itself at hour ≥ 4, or on the next calendar date
before 04:00. -/
def inWindow (D : LocalDate) (t : LocalInstant) : Prop :=
  (t.date = D ∧ RESET_HOUR ≤ t.hour ∧ t.hour < 24) ∨
  (t.date = nextDate D ∧ t.hour < RESET_HOUR)

/-! ## Store data model (store.ts, v2) -/

inductive TaskId where
  | mobilityBlock1
  | mobilityBlock2
  | mobilityBlock3
  | deepWork1
  | deepWork2
  | deepWork3
  | deepWork4
  | reading20Pages
  deriving DecidableEq

/-- The string value of a `TaskId` member of the TS string-literal union. -/
def taskIdStr : TaskId → String
  | .mobilityBlock1 => "mobilityBlock1"
  | .mobilityBlock2 => "mobilityBlock2"
  | .mobilityBlock3 => "mobilityBlock3"
  | .deepWork1 => "deepWork1"
  | .deepWork2 => "deepWork2"
  | .deepWork3 => "deepWork3"
  | .deepWork4 => "deepWork4"
  | .reading20Pages => "reading20Pages"

/-- Inverse of `taskIdStr`; only ever applied (as in the TS
`id as TaskId` cast) under a membership guard, so the fallback value is
unreachable there. -/
def parseTaskId (s : String) : TaskId :=
  if s = "mobilityBlock1" then .mobilityBlock1
  else if s = "mobilityBlock2" then .mobilityBlock2
  else if s = "mobilityBlock3" then .mobilityBlock3
  else if s = "deepWork1" then .deepWork1
  else if s = "deepWork2" then .deepWork2
  else if s = "deepWork3" then .deepWork3
  else if s = "deepWork4" then .deepWork4
  else if s = "reading20Pages" then .reading20Pages
  else .mobilityBlock1

inductive TaskCategory where
  | physical
  | cognitive
  | intellectual
  deriving DecidableEq

structure TaskDefinition where
  id : TaskId
  label : String
  category : TaskCategory
  duration : String
  description : String
  pomoDurationMinutes : Nat
  deriving DecidableEq

/-- User-created tasks stored in the store. -/
structure CustomTask where
  id : String
  label : String
  category : TaskCategory
  duration : String
  description : String
  pomoDurationMinutes : Nat
  deriving DecidableEq

/-- The `Omit<CustomTask, "id">` payload of `addCustomTask`. -/
structure CustomTaskDef where
  label : String
  category : TaskCategory
  duration : String
  description : String
  pomoDurationMinutes : Nat
  deriving DecidableEq

structure FailureEvent where
  timestamp : String
  disciplineDay : String
  deriving DecidableEq

inductive WeightUnit where
  | kg
  | lbs
  deriving DecidableEq

structure WeightEntry where
  timestamp : String
  value : Int
  unit : WeightUnit
  deriving DecidableEq

structure DayRecord where
  disciplineDay : String
  complete : Bool
  tasksCompleted : Nat
  totalTasks : Nat
  failureCount : Nat
  intent : String
  mood : Nat
  deriving DecidableEq

structure ActivePomodoro where
  taskId : String
  endTime : Int
  totalMs : Int
  deriving DecidableEq

def TASK_DEFINITIONS : List TaskDefinition :=
  [ { id := .mobilityBlock1, label := "MOBILITY BLOCK I", category := .physical,
      duration := "15m", description := "Joints, hip flexors, thoracic spine",
      pomoDurationMinutes := 15 },
    { id := .mobilityBlock2, label := "MOBILITY BLOCK II", category := .physical,
      duration := "15m", description := "Hamstrings, shoulders, active stretching",
      pomoDurationMinutes := 15 },
    { id := .mobilityBlock3, label := "MOBILITY BLOCK III", category := .physical,
      duration := "15m", description := "Full body flow integration",
      pomoDurationMinutes := 15 },
    { id := .deepWork1, label := "DEEP WORK SESSION I", category := .cognitive,
      duration := "60m", description := "High-priority singular focus block",
      pomoDurationMinutes := 60 },
    { id := .deepWork2, label := "DEEP WORK SESSION II", category := .cognitive,
      duration := "60m", description := "High-priority singular focus block",
      pomoDurationMinutes := 60 },
    { id := .deepWork3, label := "DEEP WORK SESSION III", category := .cognitive,
      duration := "60m", description := "High-priority singular focus block",
      pomoDurationMinutes := 60 },
    { id := .deepWork4, label := "DEEP WORK SESSION IV", category := .cognitive,
      duration := "60m", description := "High-priority singular focus block",
      pomoDurationMinutes := 60 },
    { id := .reading20Pages, label := "READ 20 PAGES", category := .intellectual,
      duration := "—", description := "Non-fiction or technical material only",
      pomoDurationMinutes := 30 } ]

/-! ### String-keyed records (JS objects) as association lists -/

/-- `m[k]` on a JS object: the value at key `k`, if present. -/
def recLookup? {α : Type} (m : List (String × α)) (k : String) : Option α :=
  (m.find? (fun p => p.1 == k)).map Prod.snd

/-- `m[k]` in a boolean position (`undefined` is falsy) / `m[k] ?? false`. -/
def lookupB (m : List (String × Bool)) (k : String) : Bool :=
  (recLookup? m k).getD false

/-- `{...m, [k]: v}`: update the entry in place if the key exists, else
append it (JS object spread keeps the original key order). -/
def recSet {α : Type} (m : List (String × α)) (k : String) (v : α) : List (String × α) :=
  if m.any (fun p => p.1 == k) then m.map (fun p => if p.1 == k then (k, v) else p)
  else m ++ [(k, v)]

/-- `delete m[k]`. -/
def recErase {α : Type} (m : List (String × α)) (k : String) : List (String × α) :=
  m.filter (fun p => !(p.1 == k))

/-! ### Store state -/

structure GrindState where
  tasks : TaskId → Bool
  customTasks : List CustomTask
  customTaskCompletions : List (String × Bool)
  streak : Nat
  lastResetDisciplineDay : String
  protocolStartTime : Option String
  failureHistory : List FailureEvent
  dailyIntents : List (String × String)
  dailyMoods : List (String × Nat)
  weightLog : List WeightEntry
  dayHistory : List (String × DayRecord)
  enforceTaskOrder : Bool
  enforcePomodoro : Bool
  isFailureActive : Bool
  activePomodoro : Option ActivePomodoro

def initialTaskState : TaskId → Bool := fun _ => false

/-- The store's initial values. -/
def initState : GrindState :=
  { tasks := initialTaskState
    customTasks := []
    customTaskCompletions := []
    streak := 0
    lastResetDisciplineDay := ""
    protocolStartTime := none
    failureHistory := []
    dailyIntents := []
    dailyMoods := []
    weightLog := []
    dayHistory := []
    enforceTaskOrder := false
    enforcePomodoro := false
    isFailureActive := false
    activePomodoro := none }

/-! ### Actions -/

/-- `initiateProtocol(intent, mood)`; `ts` and `disciplineDay` are the values
the action reads from `new Date().toISOString()` and `getDisciplineDay()`. -/
def initiateProtocol (ts intent : String) (mood : Nat) (disciplineDay : String)
    (s : GrindState) : GrindState :=
  { s with
      protocolStartTime := some ts
      dailyIntents := recSet s.dailyIntents disciplineDay intent
      dailyMoods := recSet s.dailyMoods disciplineDay mood }

/-- `toggleTask(id)`. -/
def toggleTask (id : TaskId) (s : GrindState) : GrindState :=
  if s.enforcePomodoro && !(s.tasks id) &&
      (match s.activePomodoro with
       | none => true
       | some p => p.taskId != taskIdStr id) then
    s
  else
    { s with tasks := fun j => if j = id then !(s.tasks j) else s.tasks j }

/-- `toggleCustomTask(id)`. -/
def toggleCustomTask (id : String) (s : GrindState) : GrindState :=
  if s.enforcePomodoro && !(lookupB s.customTaskCompletions id) &&
      (match s.activePomodoro with
       | none => true
       | some p => p.taskId != id) then
    s
  else
    { s with customTaskCompletions :=
        recSet s.customTaskCompletions id (!(lookupB s.customTaskCompletions id)) }

/-- `addCustomTask(def)`; `gid` is the generated
`custom_${Date.now()}_${random}` id. -/
def addCustomTask (d : CustomTaskDef) (gid : String) (s : GrindState) : GrindState :=
  { s with customTasks := s.customTasks ++
      [{ id := gid, label := d.label, category := d.category, duration := d.duration,
         description := d.description, pomoDurationMinutes := d.pomoDurationMinutes }] }

/-- `removeCustomTask(id)`. -/
def removeCustomTask (id : String) (s : GrindState) : GrindState :=
  { s with
      customTasks := s.customTasks.filter (fun t => !(t.id == id))
      customTaskCompletions := recErase s.customTaskCompletions id }

/-- `triggerFailure()`; `ts` and `disciplineDay` are the clock reads. The
10-second `setTimeout` relapse of `isFailureActive` is the separate
`Op.failureTimeout` event. -/
def triggerFailure (ts disciplineDay : String) (s : GrindState) : GrindState :=
  { s with
      failureHistory := s.failureHistory ++ [{ timestamp := ts, disciplineDay := disciplineDay }]
      isFailureActive := true }

/-- Completion of the closing day: all built-ins true and all custom tasks
true (vacuously when there are none). -/
def dayWasComplete (s : GrindState) : Bool :=
  (TASK_DEFINITIONS.all fun t => s.tasks t.id) &&
  (s.customTasks.isEmpty || s.customTasks.all fun t => lookupB s.customTaskCompletions t.id)

def builtinDoneCount (s : GrindState) : Nat :=
  (TASK_DEFINITIONS.filter fun t => s.tasks t.id).length

def customDoneCount (s : GrindState) : Nat :=
  (s.customTasks.filter fun t => lookupB s.customTaskCompletions t.id).length

/-- The `DayRecord` literal written at the archive step of
`performDailyReset`, computed over the pre-reset state. -/
def closingRecord (s : GrindState) : DayRecord :=
  { disciplineDay := s.lastResetDisciplineDay
    complete := dayWasComplete s
    tasksCompleted := builtinDoneCount s + customDoneCount s
    totalTasks := TASK_DEFINITIONS.length + s.customTasks.length
    failureCount :=
      (s.failureHistory.filter fun f => f.disciplineDay == s.lastResetDisciplineDay).length
    intent := (recLookup? s.dailyIntents s.lastResetDisciplineDay).getD ""
    mood := (recLookup? s.dailyMoods s.lastResetDisciplineDay).getD 0 }

/-- `performDailyReset(currentDisciplineDay)`: the reset transition. -/
def performDailyReset (currentDisciplineDay : String) (s : GrindState) : GrindState :=
  if s.lastResetDisciplineDay = currentDisciplineDay then s
  else
    let closingDay := s.lastResetDisciplineDay
    let newDayHistory :=
      if closingDay = "" then s.dayHistory
      else recSet s.dayHistory closingDay (closingRecord s)
    let newStreak := if closingDay ≠ "" ∧ dayWasComplete s then s.streak + 1 else 0
    { s with
        tasks := initialTaskState
        customTaskCompletions := []
        streak := newStreak
        lastResetDisciplineDay := currentDisciplineDay
        protocolStartTime := none
        activePomodoro := none
        dayHistory := newDayHistory }

/-- `logWeight(value, unit)`; `ts` is the clock read. -/
def logWeight (ts : String) (value : Int) (unit : WeightUnit) (s : GrindState) : GrindState :=
  { s with weightLog := s.weightLog ++ [{ timestamp := ts, value := value, unit := unit }] }

/-- `startPomodoro(taskId, endTime, totalMs)`. -/
def startPomodoro (taskId : String) (endTime totalMs : Int) (s : GrindState) : GrindState :=
  { s with activePomodoro := some { taskId := taskId, endTime := endTime, totalMs := totalMs } }

/-- `stopPomodoro()`. -/
def stopPomodoro (s : GrindState) : GrindState :=
  { s with activePomodoro := none }

def toggleEnforceTaskOrder (s : GrindState) : GrindState :=
  { s with enforceTaskOrder := !s.enforceTaskOrder }

def toggleEnforcePomodoro (s : GrindState) : GrindState :=
  { s with enforcePomodoro := !s.enforcePomodoro }

/-! ### Computed selectors -/

/-- `isDayComplete()`. -/
def isDayComplete (s : GrindState) : Bool :=
  (TASK_DEFINITIONS.all fun t => s.tasks t.id) &&
  (s.customTasks.isEmpty || s.customTasks.all fun t => lookupB s.customTaskCompletions t.id)

/-- `Math.round`: nearest integer, ties toward positive infinity. -/
def jsRound (q : ℚ) : ℤ := ⌊q + 1 / 2⌋

/-- `progressPercent()`: `Math.round((done / total) * 100)`, with 0 for an
empty catalog; exact rational arithmetic stands in for IEEE doubles. -/
def progressPercent (s : GrindState) : ℤ :=
  let total := TASK_DEFINITIONS.length + s.customTasks.length
  if total = 0 then 0
  else jsRound ((((builtinDoneCount s + customDoneCount s : Nat) : ℚ) / total) * 100)

/-- The catalog-order id sequence: built-ins in fixed order, then custom
tasks in creation order. -/
def catalogIds (s : GrindState) : List String :=
  TASK_DEFINITIONS.map (fun t => taskIdStr t.id) ++ s.customTasks.map (fun t => t.id)

/-- The per-id completion test of the `lockedTaskIds` loop body. -/
def catalogComplete (s : GrindState) (id : String) : Bool :=
  if TASK_DEFINITIONS.any (fun t => taskIdStr t.id == id) then s.tasks (parseTaskId id)
  else lookupB s.customTaskCompletions id

/-- The `for (const id of allIds)` loop of `lockedTaskIds`: collect every id
seen while `foundIncomplete` is set, setting it after any incomplete id. -/
def lockedGo (cmpl : String → Bool) : List String → Bool → List String
  | [], _ => []
  | id :: rest, found =>
    (if found then [id] else []) ++ lockedGo cmpl rest (found || !cmpl id)

/-- `lockedTaskIds()` (the returned JS `Set` modelled by the list of ids
added to it, in insertion order). -/
def lockedTaskIds (s : GrindState) : List String :=
  if !s.enforceTaskOrder then []
  else lockedGo (catalogComplete s) (catalogIds s) false

/-! ### Operations and traces -/

/-- One store mutation event (actions plus the failure-flag timeout);
clock reads appear as explicit arguments. -/
inductive Op where
  | initiateProtocol (ts intent : String) (mood : Nat) (disciplineDay : String)
  | toggleTask (id : TaskId)
  | toggleCustomTask (id : String)
  | addCustomTask (d : CustomTaskDef) (gid : String)
  | removeCustomTask (id : String)
  | triggerFailure (ts disciplineDay : String)
  | performDailyReset (currentDisciplineDay : String)
  | logWeight (ts : String) (value : Int) (unit : WeightUnit)
  | startPomodoro (taskId : String) (endTime totalMs : Int)
  | stopPomodoro
  | toggleEnforceTaskOrder
  | toggleEnforcePomodoro
  | failureTimeout

def exec : Op → GrindState → GrindState
  | .initiateProtocol ts intent mood day, s => initiateProtocol ts intent mood day s
  | .toggleTask id, s => toggleTask id s
  | .toggleCustomTask id, s => toggleCustomTask id s
  | .addCustomTask d gid, s => addCustomTask d gid s
  | .removeCustomTask id, s => removeCustomTask id s
  | .triggerFailure ts day, s => triggerFailure ts day s
  | .performDailyReset day, s => performDailyReset day s
  | .logWeight ts v u, s => logWeight ts v u s
  | .startPomodoro tid e tot, s => startPomodoro tid e tot s
  | .stopPomodoro, s => stopPomodoro s
  | .toggleEnforceTaskOrder, s => toggleEnforceTaskOrder s
  | .toggleEnforcePomodoro, s => toggleEnforcePomodoro s
  | .failureTimeout, s => { s with isFailureActive := false }

def run (s : GrindState) : List Op → GrindState
  | [] => s
  | op :: rest => run (exec op s) rest

/-- The day ids passed to `performDailyReset` along a trace. -/
def resetArgs : List Op → List String
  | [] => []
  | .performDailyReset day :: rest => day :: resetArgs rest
  | _ :: rest => resetArgs rest

end GrindOS

namespace GrindOS

/-! ## Proof-side states, traces, and predicates -/

/-- The state after a successful toggle of built-in task `id`. -/
def flipTask (s : GrindState) (id : TaskId) : GrindState :=
  { s with tasks := fun j => if j = id then !(s.tasks j) else s.tasks j }

/-- The state after a successful toggle of custom task `cid`. -/
def flipCustomTask (s : GrindState) (cid : String) : GrindState :=
  { s with customTaskCompletions :=
      recSet s.customTaskCompletions cid (!(lookupB s.customTaskCompletions cid)) }

/-- A state with Pomodoro enforcement on and no active timer. -/
def sRej : GrindState := { initState with enforcePomodoro := true }

/-- A state with Pomodoro enforcement on and a timer bound to `deepWork1`. -/
def sOk : GrindState :=
  { initState with
      enforcePomodoro := true
      activePomodoro := some { taskId := "deepWork1", endTime := 0, totalMs := 0 } }

/-- The spec's reference scenario: streak 3, closing day `2026-02-09`, all
eight built-in tasks complete, no custom tasks. -/
def scenState : GrindState :=
  { initState with
      tasks := fun _ => true
      streak := 3
      lastResetDisciplineDay := "2026-02-09" }

/-- A trace with a gap: day `2026-02-09` is fully completed and closed, but
the next reset happens only on `2026-02-11` (the app was not running at the
`2026-02-10` boundary). -/
def c2GapTrace : List Op :=
  [.performDailyReset "2026-02-09",
   .toggleTask .mobilityBlock1, .toggleTask .mobilityBlock2, .toggleTask .mobilityBlock3,
   .toggleTask .deepWork1, .toggleTask .deepWork2, .toggleTask .deepWork3,
   .toggleTask .deepWork4, .toggleTask .reading20Pages,
   .performDailyReset "2026-02-11"]

/-- The spec's ordering scenario: enforcement on, built-ins 1–3 complete,
task 4 (`deepWork1`) incomplete, the rest untouched, no custom tasks. -/
def orderScenState : GrindState :=
  { initState with
      enforceTaskOrder := true
      tasks := fun j =>
        decide (j = .mobilityBlock1) || decide (j = .mobilityBlock2) ||
        decide (j = .mobilityBlock3) }

/-- Invariant carried along a trace whose remaining reset arguments are
`args`: the sentinel key is never archived, the currently open day is not
yet archived and will not be re-entered, and no upcoming day id is
archived yet. -/
def HistInv (s : GrindState) (args : List String) : Prop :=
  recLookup? s.dayHistory "" = none ∧
  (s.lastResetDisciplineDay ≠ "" →
    s.lastResetDisciplineDay ∉ args ∧
    recLookup? s.dayHistory s.lastResetDisciplineDay = none) ∧
  (∀ a ∈ args, a ≠ "" → recLookup? s.dayHistory a = none)

/-- The trace that first archives `2026-02-09` (with one completed task). -/
def c7Trace1 : List Op :=
  [.performDailyReset "2026-02-09", .toggleTask .mobilityBlock1,
   .performDailyReset "2026-02-10"]

/-- Same trace continued with a reset back to an already-used day id and a
second closing of `2026-02-09`. -/
def c7Trace2 : List Op :=
  c7Trace1 ++ [.performDailyReset "2026-02-09", .performDailyReset "2026-02-10"]

/-- A fully complete state with 193 custom tasks (within what repeated
`addCustomTask`/`toggleCustomTask` calls can reach). -/
def bigState : GrindState :=
  { initState with
      tasks := fun _ => true
      customTasks := (List.range 193).map (fun i =>
        { id := toString i, label := "T", category := .physical, duration := "5m",
          description := "", pomoDurationMinutes := 5 })
      customTaskCompletions := (List.range 193).map (fun i => (toString i, true)) }

def newTaskDef : CustomTaskDef :=
  { label := "X", category := .physical, duration := "5m", description := "",
    pomoDurationMinutes := 5 }

/-- A complete state with no custom tasks. -/
def allDoneState : GrindState := { initState with tasks := fun _ => true }

/-! ## Helper lemmas: association-list records -/

theorem recLookup_map_update_self {α : Type} (k : String) (v : α) :
    ∀ m : List (String × α), m.any (fun p => p.1 == k) →
      recLookup? (m.map (fun p => if p.1 == k then (k, v) else p)) k = some v := by
  intro m
  induction m with
  | nil => simp
  | cons p ps ih =>
    intro hany
    by_cases hp : p.1 == k
    · simp [recLookup?, List.find?, hp]
    · have hrest : ps.any (fun p => p.1 == k) := by
        rcases List.any_eq_true.mp hany with ⟨x, hx, hxk⟩
        rcases List.mem_cons.mp hx with hx | hx
        · exact absurd (hx ▸ hxk) (by simpa using hp)
        · exact List.any_eq_true.mpr ⟨x, hx, hxk⟩
      have := ih hrest
      simpa [recLookup?, List.find?, hp] using this

theorem recLookup_map_update_ne {α : Type} (k k' : String) (v : α) (hne : k' ≠ k) :
    ∀ m : List (String × α),
      recLookup? (m.map (fun p => if p.1 == k then (k, v) else p)) k' = recLookup? m k' := by
  intro m
  induction m with
  | nil => simp
  | cons p ps ih =>
    by_cases hp : p.1 == k
    · have hpk : p.1 = k := by simpa using hp
      have h1 : ((k, v).1 == k') = false := by simpa using fun h => hne h.symm
      have h2 : (p.1 == k') = false := by
        rw [hpk]; simpa using fun h => hne h.symm
      simpa [recLookup?, List.find?, hp, h1, h2] using ih
    · by_cases hh : p.1 == k'
      · simp [recLookup?, List.find?, hp, hh]
      · simpa [recLookup?, List.find?, hp, hh] using ih

theorem recLookup_recSet {α : Type} (m : List (String × α)) (k k' : String) (v : α) :
    recLookup? (recSet m k v) k' = if k' = k then some v else recLookup? m k' := by
  by_cases hany : m.any (fun p => p.1 == k)
  · rw [recSet, if_pos hany]
    by_cases hk : k' = k
    · rw [if_pos hk, hk]
      exact recLookup_map_update_self k v m hany
    · rw [if_neg hk]
      exact recLookup_map_update_ne k k' v hk m
  · rw [recSet, if_neg hany]
    have hfalse : m.any (fun p => p.1 == k) = false := Bool.eq_false_iff.mpr hany
    have hn : List.find? (fun p => p.1 == k) m = none :=
      List.find?_eq_none.mpr (List.any_eq_false.mp hfalse)
    by_cases hk : k' = k
    · rw [if_pos hk, hk]
      rw [recLookup?, List.find?_append, hn]
      simp [List.find?]
    · rw [if_neg hk]
      have h1 : List.find? (fun p => p.1 == k') [(k, v)] = none := by
        have hkk : (k == k') = false := beq_eq_false_iff_ne.mpr (fun h => hk h.symm)
        simp [List.find?, hkk]
      rw [recLookup?, List.find?_append, h1, Option.or_none, recLookup?]

theorem recLookup_recSet_self {α : Type} (m : List (String × α)) (k : String) (v : α) :
    recLookup? (recSet m k v) k = some v := by
  simp [recLookup_recSet]

theorem recLookup_recSet_ne {α : Type} (m : List (String × α)) (k k' : String) (v : α)
    (h : k' ≠ k) : recLookup? (recSet m k v) k' = recLookup? m k' := by
  simp [recLookup_recSet, h]

/-! ## Helper lemmas: actions -/

theorem performDailyReset_noop {d : String} {s : GrindState}
    (h : s.lastResetDisciplineDay = d) : performDailyReset d s = s := by
  simp [performDailyReset, h]

theorem performDailyReset_lastReset (d : String) (s : GrindState) :
    (performDailyReset d s).lastResetDisciplineDay = d ∨
    (s.lastResetDisciplineDay = d ∧ performDailyReset d s = s) := by
  by_cases h : s.lastResetDisciplineDay = d
  · exact Or.inr ⟨h, performDailyReset_noop h⟩
  · left; simp [performDailyReset, h]

/-! ## C1 -/

/-- C1: `performDailyReset` is idempotent — calling it twice in a row with
the same day id yields exactly the state of calling it once; the second
call is a no-op (no second streak update, archive write, or clearing). -/
theorem performDailyReset_idempotent (d : String) (s : GrindState) :
    performDailyReset d (performDailyReset d s) = performDailyReset d s := by
  rcases performDailyReset_lastReset d s with h | ⟨h, hs⟩
  · exact performDailyReset_noop h
  · rw [hs]; exact performDailyReset_noop h

/-! ## C6 -/

/-- C6: `toggleTask`/`toggleCustomTask` flip the completion boolean except
exactly when `enforcePomodoro` is on, the task is incomplete, and no active
Pomodoro is bound to it — then the whole store is left unchanged; a
matching active Pomodoro or an already-complete task always toggles. -/
theorem toggle_pomodoro_enforcement :
    ∀ (s : GrindState) (id : TaskId) (cid : String),
      (s.enforcePomodoro = true → s.tasks id = false →
        (∀ p, s.activePomodoro = some p → p.taskId ≠ taskIdStr id) →
        toggleTask id s = s) ∧
      (s.enforcePomodoro = false → toggleTask id s = flipTask s id) ∧
      (s.tasks id = true → toggleTask id s = flipTask s id) ∧
      (∀ p, s.activePomodoro = some p → p.taskId = taskIdStr id →
        toggleTask id s = flipTask s id) ∧
      (s.enforcePomodoro = true → lookupB s.customTaskCompletions cid = false →
        (∀ p, s.activePomodoro = some p → p.taskId ≠ cid) →
        toggleCustomTask cid s = s) ∧
      (s.enforcePomodoro = false → toggleCustomTask cid s = flipCustomTask s cid) ∧
      (lookupB s.customTaskCompletions cid = true →
        toggleCustomTask cid s = flipCustomTask s cid) ∧
      (∀ p, s.activePomodoro = some p → p.taskId = cid →
        toggleCustomTask cid s = flipCustomTask s cid) := by
  intro s id cid
  refine ⟨?_, ?_, ?_, ?_, ?_, ?_, ?_, ?_⟩
  · intro henf ht hp
    cases hap : s.activePomodoro with
    | none => simp [toggleTask, henf, ht, hap]
    | some p => simp [toggleTask, henf, ht, hap, bne_iff_ne, hp p hap]
  · intro henf; simp [toggleTask, henf, flipTask]
  · intro ht; simp [toggleTask, ht, flipTask]
  · intro p hap heq
    simp [toggleTask, hap, heq, flipTask]
  · intro henf ht hp
    cases hap : s.activePomodoro with
    | none => simp [toggleCustomTask, henf, ht, hap]
    | some p => simp [toggleCustomTask, henf, ht, hap, bne_iff_ne, hp p hap]
  · intro henf; simp [toggleCustomTask, henf, flipCustomTask]
  · intro ht; simp [toggleCustomTask, ht, flipCustomTask]
  · intro p hap heq
    simp [toggleCustomTask, hap, heq, flipCustomTask]

/-- Witness for C6 at concrete states: the enforced reject, the
matching-Pomodoro success, and the enforcement-off success. -/
theorem toggle_pomodoro_enforcement_witness :
    toggleTask .deepWork1 sRej = sRej ∧
    toggleCustomTask "c1" sRej = sRej ∧
    toggleTask .deepWork1 sOk = flipTask sOk .deepWork1 ∧
    toggleTask .deepWork1 initState = flipTask initState .deepWork1 := by
  refine ⟨?_, ?_, ?_, ?_⟩
  · exact (toggle_pomodoro_enforcement sRej .deepWork1 "c1").1 rfl rfl
      (fun p hp => by simp [sRej, initState] at hp)
  · exact (toggle_pomodoro_enforcement sRej .deepWork1 "c1").2.2.2.2.1 rfl rfl
      (fun p hp => by simp [sRej, initState] at hp)
  · exact (toggle_pomodoro_enforcement sOk .deepWork1 "c1").2.2.2.1
      { taskId := "deepWork1", endTime := 0, totalMs := 0 } rfl rfl
  · exact (toggle_pomodoro_enforcement initState .deepWork1 "c1").2.1 rfl

/-! ## C9 -/

/-- C9: the failure log is append-only and inert — every operation leaves
`failureHistory` unchanged or appends exactly one event at the end;
`triggerFailure` appends the event of its clock reads and changes neither
streak nor any built-in or custom completion. -/
theorem failureHistory_appendOnly_inert :
    (∀ (op : Op) (s : GrindState),
      (exec op s).failureHistory = s.failureHistory ∨
      ∃ e, (exec op s).failureHistory = s.failureHistory ++ [e]) ∧
    (∀ (ts day : String) (s : GrindState),
      (exec (.triggerFailure ts day) s).failureHistory =
        s.failureHistory ++ [{ timestamp := ts, disciplineDay := day }] ∧
      (exec (.triggerFailure ts day) s).streak = s.streak ∧
      (exec (.triggerFailure ts day) s).tasks = s.tasks ∧
      (exec (.triggerFailure ts day) s).customTaskCompletions = s.customTaskCompletions) := by
  constructor
  · intro op s
    cases op with
    | initiateProtocol ts intent mood day => left; rfl
    | toggleTask id =>
      left; show (toggleTask id s).failureHistory = _
      unfold toggleTask; split <;> rfl
    | toggleCustomTask id =>
      left; show (toggleCustomTask id s).failureHistory = _
      unfold toggleCustomTask; split <;> rfl
    | addCustomTask d gid => left; rfl
    | removeCustomTask id => left; rfl
    | triggerFailure ts day => exact Or.inr ⟨_, rfl⟩
    | performDailyReset day =>
      left; show (performDailyReset day s).failureHistory = _
      unfold performDailyReset; split <;> rfl
    | logWeight ts v u => left; rfl
    | startPomodoro tid e tot => left; rfl
    | stopPomodoro => left; rfl
    | toggleEnforceTaskOrder => left; rfl
    | toggleEnforcePomodoro => left; rfl
    | failureTimeout => left; rfl
  · intro ts day s
    exact ⟨rfl, rfl, rfl, rfl⟩

/-! ## C3 -/

/-- C3: with a non-sentinel closing day and a fresh new id,
`performDailyReset` writes exactly one `DayRecord` under the closing id —
`complete`/`tasksCompleted`/`totalTasks` computed over the pre-reset
completion maps and `intent`/`mood`/`failureCount` looked up by the closing
id — updates the streak (increment on complete, else 0), clears all
completions, and commits the new id; on the first-ever run no archive is
written and streak stays 0. -/
theorem performDailyReset_spec (s : GrindState) (newId : String)
    (hne : newId ≠ s.lastResetDisciplineDay) :
    (s.lastResetDisciplineDay ≠ "" →
      recLookup? (performDailyReset newId s).dayHistory s.lastResetDisciplineDay =
        some { disciplineDay := s.lastResetDisciplineDay
               complete := dayWasComplete s
               tasksCompleted := builtinDoneCount s + customDoneCount s
               totalTasks := 8 + s.customTasks.length
               failureCount := (s.failureHistory.filter
                 fun f => f.disciplineDay == s.lastResetDisciplineDay).length
               intent := (recLookup? s.dailyIntents s.lastResetDisciplineDay).getD ""
               mood := (recLookup? s.dailyMoods s.lastResetDisciplineDay).getD 0 } ∧
      (∀ k, k ≠ s.lastResetDisciplineDay →
        recLookup? (performDailyReset newId s).dayHistory k = recLookup? s.dayHistory k) ∧
      (performDailyReset newId s).streak =
        (if dayWasComplete s = true then s.streak + 1 else 0)) ∧
    (s.lastResetDisciplineDay = "" →
      (performDailyReset newId s).dayHistory = s.dayHistory ∧
      (performDailyReset newId s).streak = 0) ∧
    (∀ id, (performDailyReset newId s).tasks id = false) ∧
    (performDailyReset newId s).customTaskCompletions = [] ∧
    (performDailyReset newId s).lastResetDisciplineDay = newId := by
  have hguard : ¬(s.lastResetDisciplineDay = newId) := fun h => hne h.symm
  refine ⟨fun hcl => ⟨?_, ?_, ?_⟩, fun hcl => ⟨?_, ?_⟩, ?_, ?_, ?_⟩ <;>
    simp only [performDailyReset, if_neg hguard]
  · rw [if_neg hcl]
    exact (recLookup_recSet_self _ _ _).trans rfl
  · intro k hk
    rw [if_neg hcl]
    exact recLookup_recSet_ne _ _ _ _ hk
  · by_cases hd : dayWasComplete s = true <;> simp [hcl, hd]
  · rw [if_pos hcl]
  · simp [hcl]
  · intro id; rfl

/-- Witness for C3 at the spec's scenario: one record for `2026-02-09` with
`complete = true`, 8/8 tasks; streak 4; completions cleared; new id set. -/
theorem performDailyReset_spec_witness :
    recLookup? ((performDailyReset "2026-02-10" scenState).dayHistory) "2026-02-09" =
      some { disciplineDay := "2026-02-09", complete := true, tasksCompleted := 8,
             totalTasks := 8, failureCount := 0, intent := "", mood := 0 } ∧
    (performDailyReset "2026-02-10" scenState).streak = 4 ∧
    (∀ id, (performDailyReset "2026-02-10" scenState).tasks id = false) ∧
    (performDailyReset "2026-02-10" scenState).customTaskCompletions = [] ∧
    (performDailyReset "2026-02-10" scenState).lastResetDisciplineDay = "2026-02-10" := by
  have h := performDailyReset_spec scenState "2026-02-10" (by decide)
  have h1 := (h.1 (by decide)).1
  have h3 := (h.1 (by decide)).2.2
  refine ⟨h1.trans (by decide), ?_, h.2.2.1, h.2.2.2.1, h.2.2.2.2⟩
  rw [h3]; decide

/-! ## C2 -/

/-- C2 (code bug): after the gap trace the current day is `2026-02-11`, the
day immediately before it (`2026-02-10`, per `getPreviousDisciplineDay`)
never closed at all — yet the streak is 1, not the 0 the stated invariant
requires; `performDailyReset` increments without any adjacency check. -/
theorem streak_skipped_day_bug :
    (run initState c2GapTrace).lastResetDisciplineDay = "2026-02-11" ∧
    getPreviousDisciplineDay "2026-02-11" = "2026-02-10" ∧
    recLookup? (run initState c2GapTrace).dayHistory "2026-02-10" = none ∧
    (run initState c2GapTrace).streak = 1 := by
  refine ⟨rfl, by decide, rfl, rfl⟩

/-! ## C5 -/

theorem lockedGo_found (cmpl : String → Bool) (l : List String) :
    lockedGo cmpl l true = l := by
  induction l with
  | nil => rfl
  | cons x xs ih => simp [lockedGo, ih]

theorem lockedGo_not_found (cmpl : String → Bool) (l : List String) :
    lockedGo cmpl l false = l.drop (l.findIdx (fun id => !cmpl id) + 1) := by
  induction l with
  | nil => rfl
  | cons x xs ih =>
    by_cases hc : cmpl x
    · simp [lockedGo, hc, List.findIdx_cons, ih, List.drop_succ_cons]
    · simp [lockedGo, hc, List.findIdx_cons, lockedGo_found]

theorem not_mem_drop_succ_of_nodup {l : List String} (hnd : l.Nodup) (i : Nat) (x : String)
    (hx : l.get? i = some x) : x ∉ l.drop (i + 1) := by
  intro hmem
  rcases List.get?_eq_some.mp hx with ⟨hi, hget⟩
  rcases List.mem_iff_get.mp hmem with ⟨⟨j, hj⟩, hj2⟩
  have hlen : i + 1 + j < l.length := by
    have := hj
    simp [List.length_drop] at this
    omega
  have : l.get ⟨i + 1 + j, hlen⟩ = (l.drop (i + 1)).get ⟨j, hj⟩ := List.get_drop l hlen
  have heq : l.get ⟨i + 1 + j, hlen⟩ = l.get ⟨i, hi⟩ := by rw [this, hj2, hget]
  have := (List.Nodup.get_inj_iff hnd).mp heq
  simp [Fin.ext_iff] at this
  omega

/-- C5: `lockedTaskIds` is empty when `enforceTaskOrder` is off; when on,
it is exactly the catalog-order suffix strictly after the first incomplete
task (regardless of later tasks' own state), and the first incomplete task
itself is never in it. -/
theorem lockedTaskIds_spec (s : GrindState) :
    (s.enforceTaskOrder = false → lockedTaskIds s = []) ∧
    (s.enforceTaskOrder = true →
      lockedTaskIds s =
        (catalogIds s).drop
          ((catalogIds s).findIdx (fun id => !catalogComplete s id) + 1) ∧
      ((catalogIds s).Nodup → ∀ x,
        (catalogIds s).get? ((catalogIds s).findIdx (fun id => !catalogComplete s id)) =
          some x → x ∉ lockedTaskIds s)) := by
  refine ⟨fun h => by simp [lockedTaskIds, h], fun h => ⟨?_, ?_⟩⟩
  · simp only [lockedTaskIds, h, Bool.not_true, Bool.false_eq_true, if_false]
    exact lockedGo_not_found _ _
  · intro hnd x hx
    have hrw : lockedTaskIds s =
        (catalogIds s).drop
          ((catalogIds s).findIdx (fun id => !catalogComplete s id) + 1) := by
      simp only [lockedTaskIds, h, Bool.not_true, Bool.false_eq_true, if_false]
      exact lockedGo_not_found _ _
    rw [hrw]
    exact not_mem_drop_succ_of_nodup hnd _ x hx

/-- Witness for C5 at the spec's scenario: exactly the four catalog
positions after `deepWork1` are locked, and `deepWork1` itself is not. -/
theorem lockedTaskIds_spec_witness :
    lockedTaskIds orderScenState = ["deepWork2", "deepWork3", "deepWork4", "reading20Pages"] ∧
    "deepWork1" ∉ lockedTaskIds orderScenState := by
  have h := (lockedTaskIds_spec orderScenState).2 rfl
  exact ⟨h.1.trans (by decide), h.2 (by decide) "deepWork1" (by decide)⟩

/-! ## C7 -/

theorem run_append (p q : List Op) : ∀ s : GrindState,
    run s (p ++ q) = run (run s p) q := by
  induction p with
  | nil => intro s; rfl
  | cons op rest ih => intro s; simp only [List.cons_append, run]; exact ih (exec op s)

theorem resetArgs_append (p q : List Op) :
    resetArgs (p ++ q) = resetArgs p ++ resetArgs q := by
  induction p with
  | nil => rfl
  | cons op rest ih => cases op <;> simp [resetArgs, ih]

theorem histInv_of_fields {s s' : GrindState} {args : List String}
    (hdh : s'.dayHistory = s.dayHistory)
    (hlr : s'.lastResetDisciplineDay = s.lastResetDisciplineDay)
    (h : HistInv s args) : HistInv s' args := by
  obtain ⟨h1, h2, h3⟩ := h
  refine ⟨by rw [hdh]; exact h1, ?_, fun a ha hane => by rw [hdh]; exact h3 a ha hane⟩
  intro hne
  rw [hlr] at hne
  rw [hlr, hdh]
  exact h2 hne

/-- Every operation is either a reset or leaves `dayHistory`,
`lastResetDisciplineDay`, and the reset-argument list untouched. -/
theorem exec_nonreset_or (op : Op) (s : GrindState) :
    (∃ d, op = Op.performDailyReset d) ∨
    ((exec op s).dayHistory = s.dayHistory ∧
     (exec op s).lastResetDisciplineDay = s.lastResetDisciplineDay ∧
     ∀ rest, resetArgs (op :: rest) = resetArgs rest) := by
  cases op with
  | performDailyReset d => exact Or.inl ⟨d, rfl⟩
  | toggleTask id =>
    refine Or.inr ⟨?_, ?_, fun rest => rfl⟩
    · show (toggleTask id s).dayHistory = s.dayHistory
      unfold toggleTask; split <;> rfl
    · show (toggleTask id s).lastResetDisciplineDay = s.lastResetDisciplineDay
      unfold toggleTask; split <;> rfl
  | toggleCustomTask id =>
    refine Or.inr ⟨?_, ?_, fun rest => rfl⟩
    · show (toggleCustomTask id s).dayHistory = s.dayHistory
      unfold toggleCustomTask; split <;> rfl
    · show (toggleCustomTask id s).lastResetDisciplineDay = s.lastResetDisciplineDay
      unfold toggleCustomTask; split <;> rfl
  | initiateProtocol a b c d => exact Or.inr ⟨rfl, rfl, fun rest => rfl⟩
  | addCustomTask d gid => exact Or.inr ⟨rfl, rfl, fun rest => rfl⟩
  | removeCustomTask id => exact Or.inr ⟨rfl, rfl, fun rest => rfl⟩
  | triggerFailure ts day => exact Or.inr ⟨rfl, rfl, fun rest => rfl⟩
  | logWeight ts v u => exact Or.inr ⟨rfl, rfl, fun rest => rfl⟩
  | startPomodoro tid e tot => exact Or.inr ⟨rfl, rfl, fun rest => rfl⟩
  | stopPomodoro => exact Or.inr ⟨rfl, rfl, fun rest => rfl⟩
  | toggleEnforceTaskOrder => exact Or.inr ⟨rfl, rfl, fun rest => rfl⟩
  | toggleEnforcePomodoro => exact Or.inr ⟨rfl, rfl, fun rest => rfl⟩
  | failureTimeout => exact Or.inr ⟨rfl, rfl, fun rest => rfl⟩

theorem histInv_reset_step (s : GrindState) (d : String) (rest : List String)
    (hnd : (d :: rest).Nodup) (hI : HistInv s (d :: rest)) :
    HistInv (performDailyReset d s) rest ∧
    (∀ k r, recLookup? s.dayHistory k = some r →
      recLookup? (performDailyReset d s).dayHistory k = some r) := by
  obtain ⟨hI1, hI2, hI3⟩ := hI
  have hdnotin : d ∉ rest := (List.nodup_cons.mp hnd).1
  by_cases hg : s.lastResetDisciplineDay = d
  · rw [performDailyReset_noop hg]
    refine ⟨⟨hI1, ?_, fun a ha hane => hI3 a (List.mem_cons_of_mem d ha) hane⟩,
      fun k r hk => hk⟩
    intro hne
    exact absurd (by rw [hg]; exact List.mem_cons_self d rest) (hI2 hne).1
  · have hred : performDailyReset d s =
        { s with
            tasks := initialTaskState
            customTaskCompletions := []
            streak := if s.lastResetDisciplineDay ≠ "" ∧ dayWasComplete s then s.streak + 1 else 0
            lastResetDisciplineDay := d
            protocolStartTime := none
            activePomodoro := none
            dayHistory :=
              if s.lastResetDisciplineDay = "" then s.dayHistory
              else recSet s.dayHistory s.lastResetDisciplineDay (closingRecord s) } := by
      unfold performDailyReset
      rw [if_neg hg]
    have hlr : (performDailyReset d s).lastResetDisciplineDay = d := by rw [hred]
    by_cases hc : s.lastResetDisciplineDay = ""
    · have hdh : (performDailyReset d s).dayHistory = s.dayHistory := by
        rw [hred]
        show (if s.lastResetDisciplineDay = "" then s.dayHistory
              else recSet s.dayHistory s.lastResetDisciplineDay (closingRecord s)) = s.dayHistory
        rw [if_pos hc]
      refine ⟨⟨?_, ?_, ?_⟩, ?_⟩
      · rw [hdh]; exact hI1
      · rw [hlr]; intro hdne
        refine ⟨hdnotin, ?_⟩
        rw [hdh]
        exact hI3 d (List.mem_cons_self d rest) hdne
      · intro a ha hane
        rw [hdh]
        exact hI3 a (List.mem_cons_of_mem d ha) hane
      · intro k r hk
        rw [hdh]; exact hk
    · obtain ⟨hYnotin, hYnone⟩ := hI2 hc
      have hdh : (performDailyReset d s).dayHistory =
          recSet s.dayHistory s.lastResetDisciplineDay (closingRecord s) := by
        rw [hred]
        show (if s.lastResetDisciplineDay = "" then s.dayHistory
              else recSet s.dayHistory s.lastResetDisciplineDay (closingRecord s)) =
          recSet s.dayHistory s.lastResetDisciplineDay (closingRecord s)
        rw [if_neg hc]
      refine ⟨⟨?_, ?_, ?_⟩, ?_⟩
      · rw [hdh, recLookup_recSet_ne _ _ _ _ (fun h => hc h.symm)]
        exact hI1
      · rw [hlr]; intro hdne
        refine ⟨hdnotin, ?_⟩
        rw [hdh, recLookup_recSet_ne _ _ _ _ (fun h => hg h.symm)]
        exact hI3 d (List.mem_cons_self d rest) hdne
      · intro a ha hane
        have haY : a ≠ s.lastResetDisciplineDay := by
          intro h
          exact hYnotin (by rw [← h]; exact List.mem_cons_of_mem d ha)
        rw [hdh, recLookup_recSet_ne _ _ _ _ haY]
        exact hI3 a (List.mem_cons_of_mem d ha) hane
      · intro k r hk
        have hkY : k ≠ s.lastResetDisciplineDay := by
          intro h
          rw [h, hYnone] at hk
          exact Option.noConfusion hk
        rw [hdh, recLookup_recSet_ne _ _ _ _ hkY]
        exact hk

theorem histInv_run (ops : List Op) : ∀ (s : GrindState) (A : List String),
    HistInv s (resetArgs ops ++ A) → (resetArgs ops ++ A).Nodup →
    HistInv (run s ops) A := by
  induction ops with
  | nil => intro s A hI _; exact hI
  | cons op rest ih =>
    intro s A hI hnd
    rcases exec_nonreset_or op s with ⟨d, rfl⟩ | ⟨h1, h2, h3⟩
    · simp only [resetArgs, List.cons_append] at hI hnd
      have hstep := histInv_reset_step s d (resetArgs rest ++ A) hnd hI
      exact ih (performDailyReset d s) A hstep.1 (List.nodup_cons.mp hnd).2
    · rw [h3 rest] at hI hnd
      show HistInv (run (exec op s) rest) A
      exact ih (exec op s) A (histInv_of_fields h1 h2 hI) hnd

theorem run_preserves_records (ops : List Op) : ∀ (s : GrindState),
    HistInv s (resetArgs ops) → (resetArgs ops).Nodup →
    ∀ k r, recLookup? s.dayHistory k = some r →
      recLookup? (run s ops).dayHistory k = some r := by
  induction ops with
  | nil => intro s _ _ k r hk; exact hk
  | cons op rest ih =>
    intro s hI hnd k r hk
    rcases exec_nonreset_or op s with ⟨d, rfl⟩ | ⟨h1, h2, h3⟩
    · simp only [resetArgs] at hI hnd
      have hstep := histInv_reset_step s d (resetArgs rest) hnd hI
      exact ih (performDailyReset d s) hstep.1 (List.nodup_cons.mp hnd).2 k r
        (hstep.2 k r hk)
    · rw [h3 rest] at hI hnd
      show recLookup? (run (exec op s) rest).dayHistory k = some r
      exact ih (exec op s) (histInv_of_fields h1 h2 hI) hnd k r (by rw [h1]; exact hk)

theorem histInv_initState (A : List String) : HistInv initState A :=
  ⟨rfl, fun h => absurd rfl h, fun _ _ _ => rfl⟩

/-- C7 (amended): DayRecords are write-once provided the day ids passed to
`performDailyReset` along the whole operation sequence are pairwise
distinct (as they are when supplied by the advancing clock): once a record
is in `dayHistory`, no later operation overwrites, modifies, or removes
it. -/
theorem dayHistory_write_once (p q : List Op)
    (hnd : (resetArgs (p ++ q)).Nodup) (k : String) (r : DayRecord)
    (hk : recLookup? (run initState p).dayHistory k = some r) :
    recLookup? (run initState (p ++ q)).dayHistory k = some r := by
  rw [run_append]
  rw [resetArgs_append] at hnd
  have hIp : HistInv (run initState p) (resetArgs q) :=
    histInv_run p initState (resetArgs q) (histInv_initState _) hnd
  exact run_preserves_records q (run initState p) hIp
    (List.Nodup.of_append_right hnd) k r hk

/-- C7 counterexample: the claim quantifies over every sequence of store
operations and every later `performDailyReset` argument, but calling
`performDailyReset` with the already-used id `2026-02-09` makes the state
re-close that day and overwrite its archived record: the record for
`2026-02-09` changes from `tasksCompleted = 1` to `tasksCompleted = 0`. -/
theorem dayHistory_overwrite_cex :
    recLookup? (run initState c7Trace1).dayHistory "2026-02-09" =
      some { disciplineDay := "2026-02-09", complete := false, tasksCompleted := 1,
             totalTasks := 8, failureCount := 0, intent := "", mood := 0 } ∧
    recLookup? (run initState c7Trace2).dayHistory "2026-02-09" =
      some { disciplineDay := "2026-02-09", complete := false, tasksCompleted := 0,
             totalTasks := 8, failureCount := 0, intent := "", mood := 0 } ∧
    ({ disciplineDay := "2026-02-09", complete := false, tasksCompleted := 1,
       totalTasks := 8, failureCount := 0, intent := "", mood := 0 } : DayRecord) ≠
      { disciplineDay := "2026-02-09", complete := false, tasksCompleted := 0,
        totalTasks := 8, failureCount := 0, intent := "", mood := 0 } := by
  refine ⟨by decide, by decide, by decide⟩

/-- Witness for the amended C7: with pairwise-distinct reset ids the
archived record for `2026-02-09` survives a further reset unchanged. -/
theorem dayHistory_write_once_witness :
    recLookup? (run initState (c7Trace1 ++ [.performDailyReset "2026-02-11"])).dayHistory
      "2026-02-09" =
      some { disciplineDay := "2026-02-09", complete := false, tasksCompleted := 1,
             totalTasks := 8, failureCount := 0, intent := "", mood := 0 } := by
  exact dayHistory_write_once c7Trace1 [.performDailyReset "2026-02-11"]
    (by decide) "2026-02-09" _ (by decide)

/-! ## C10 -/

/-- Effect of `addCustomTask` on a fully complete day with a fresh
generated id: completions untouched, day incomplete, and the progress
ratio becomes `(8 + n) / (8 + n + 1)` of 100. -/
theorem addCustomTask_effect (s : GrindState) (d : CustomTaskDef) (gid : String)
    (hc : isDayComplete s = true)
    (hfresh : lookupB s.customTaskCompletions gid = false) :
    (addCustomTask d gid s).customTaskCompletions = s.customTaskCompletions ∧
    isDayComplete (addCustomTask d gid s) = false ∧
    progressPercent (addCustomTask d gid s) =
      jsRound (((8 + s.customTasks.length : Nat) : ℚ) /
        ((8 + (s.customTasks.length + 1) : Nat) : ℚ) * 100) := by
  have hc' : (TASK_DEFINITIONS.all fun t => s.tasks t.id) = true ∧
      (s.customTasks.isEmpty ||
        s.customTasks.all fun t => lookupB s.customTaskCompletions t.id) = true := by
    have h := hc
    unfold isDayComplete at h
    exact (Bool.and_eq_true _ _) ▸ h
  obtain ⟨hb, hcust⟩ := hc'
  have hbf : TASK_DEFINITIONS.filter (fun t => s.tasks t.id) = TASK_DEFINITIONS :=
    List.filter_eq_self.mpr (List.all_eq_true.mp hb)
  have hb8 : builtinDoneCount s = 8 := by
    unfold builtinDoneCount
    rw [hbf]
    decide
  have hcustn : customDoneCount s = s.customTasks.length := by
    rcases (Bool.or_eq_true _ _) ▸ hcust with he | ha
    · unfold customDoneCount
      rw [List.isEmpty_iff.mp he]
      rfl
    · unfold customDoneCount
      rw [List.filter_eq_self.mpr (List.all_eq_true.mp ha)]
  set n := s.customTasks.length with hn
  have hcd' : customDoneCount (addCustomTask d gid s) = n := by
    unfold customDoneCount addCustomTask
    rw [List.filter_append]
    simp only [List.filter_cons, List.filter_nil]
    rw [show lookupB s.customTaskCompletions gid = false from hfresh]
    simpa using hcustn
  have hb8' : builtinDoneCount (addCustomTask d gid s) = 8 := hb8
  have hdone : builtinDoneCount (addCustomTask d gid s) +
      customDoneCount (addCustomTask d gid s) = 8 + n := by rw [hb8', hcd']
  have htot : TASK_DEFINITIONS.length + (addCustomTask d gid s).customTasks.length =
      8 + (n + 1) := by
    show TASK_DEFINITIONS.length + (s.customTasks ++ [_]).length = 8 + (n + 1)
    simp [TASK_DEFINITIONS]
  have hincomplete : isDayComplete (addCustomTask d gid s) = false := by
    unfold isDayComplete addCustomTask
    simp only [List.all_append, List.all_cons, List.all_nil]
    rw [show lookupB s.customTaskCompletions gid = false from hfresh]
    simp
  refine ⟨rfl, hincomplete, ?_⟩
  unfold progressPercent
  rw [htot, hdone, if_neg (by omega)]

set_option maxRecDepth 8192 in
/-- C10 counterexample: from a fully complete state with 193 custom tasks,
adding one more leaves the day incomplete, yet `progressPercent` is 100
(`Math.round((201/202)*100) = 100`), refuting "strictly less than 100". -/
theorem addCustomTask_progress_cex :
    isDayComplete bigState = true ∧
    isDayComplete (addCustomTask newTaskDef "fresh" bigState) = false ∧
    progressPercent (addCustomTask newTaskDef "fresh" bigState) = 100 := by
  have h := addCustomTask_effect bigState newTaskDef "fresh" (by decide) (by decide)
  refine ⟨by decide, h.2.1, ?_⟩
  rw [h.2.2]
  have hn : bigState.customTasks.length = 193 := by
    simp [bigState]
  rw [hn]
  unfold jsRound
  rw [show (((8 + 193 : Nat) : ℚ) / ((8 + (193 + 1) : Nat) : ℚ) * 100 + 1 / 2) =
      (201 : ℚ) / 202 * 100 + 1 / 2 by push_cast; ring]
  rw [Int.floor_eq_iff]
  constructor <;> norm_num

/-- C10 (amended): `addCustomTask` never touches `customTaskCompletions`,
so a freshly added custom task (its generated id has no stale completion
entry) leaves `isDayComplete` false until it is toggled; `progressPercent`
stays at most 100, and is strictly below 100 whenever the resulting total
task count is below 200 (round-half-up reaches 100 from 200 tasks on). -/
theorem addCustomTask_fresh_incomplete (s : GrindState) (d : CustomTaskDef) (gid : String)
    (hc : isDayComplete s = true)
    (hfresh : lookupB s.customTaskCompletions gid = false) :
    (addCustomTask d gid s).customTaskCompletions = s.customTaskCompletions ∧
    isDayComplete (addCustomTask d gid s) = false ∧
    progressPercent (addCustomTask d gid s) ≤ 100 ∧
    (8 + s.customTasks.length + 1 < 200 →
      progressPercent (addCustomTask d gid s) < 100) := by
  obtain ⟨h1, h2, h3⟩ := addCustomTask_effect s d gid hc hfresh
  set n := s.customTasks.length with hn
  have hbpos : (0 : ℚ) < ((8 + (n + 1) : Nat) : ℚ) := by positivity
  refine ⟨h1, h2, ?_, ?_⟩
  · rw [h3]
    unfold jsRound
    have hlt : (((8 + n : Nat) : ℚ) / ((8 + (n + 1) : Nat) : ℚ)) * 100 + 1 / 2 <
        ((101 : ℤ) : ℚ) := by
      have hle1 : (((8 + n : Nat) : ℚ) / ((8 + (n + 1) : Nat) : ℚ)) ≤ 1 := by
        rw [div_le_one hbpos]
        push_cast
        linarith
      push_cast at hle1 ⊢
      nlinarith
    have hfl := Int.floor_lt.mpr hlt
    omega
  · intro hcount
    rw [h3]
    unfold jsRound
    have hq : (((8 + n : Nat) : ℚ) / ((8 + (n + 1) : Nat) : ℚ)) * 100 + 1 / 2 <
        ((100 : ℤ) : ℚ) := by
      rw [div_mul_eq_mul_div, div_add' _ _ _ (ne_of_gt hbpos), div_lt_iff hbpos]
      have hnq : (n : ℚ) < 191 := by exact_mod_cast (by omega : n < 191)
      push_cast
      nlinarith
    have hfl := Int.floor_lt.mpr hq
    omega

/-- Witness for the amended C10: adding one custom task to the complete
8-task state makes the day incomplete with progress below 100. -/
theorem addCustomTask_fresh_incomplete_witness :
    isDayComplete (addCustomTask newTaskDef "c1" allDoneState) = false ∧
    progressPercent (addCustomTask newTaskDef "c1" allDoneState) < 100 := by
  have h := addCustomTask_fresh_incomplete allDoneState newTaskDef "c1"
    (by decide) (by decide)
  exact ⟨h.2.1, h.2.2.2 (by decide)⟩

/-! ## Calendar lemmas -/

theorem monthLength_le_31 (b : Bool) (m : Nat) : monthLength b m ≤ 31 := by
  unfold monthLength
  split <;> first | omega | (split <;> omega)

theorem monthLength_pos (b : Bool) (m : Nat) (h1 : 1 ≤ m) (h12 : m ≤ 12) :
    1 ≤ monthLength b m := by
  interval_cases m <;> cases b <;> decide

theorem leapsBefore_succ (y : Nat) :
    leapsBefore (y + 1) = leapsBefore y + (if isLeap y then 1 else 0) := by
  have hle : isLeap y = true ↔ (y % 4 = 0 ∧ (y % 100 ≠ 0 ∨ y % 400 = 0)) := by
    unfold isLeap
    simp [Bool.and_eq_true, Bool.or_eq_true, beq_iff_eq, bne_iff_ne]
  by_cases hiff : y % 4 = 0 ∧ (y % 100 ≠ 0 ∨ y % 400 = 0)
  · rw [if_pos (hle.mpr hiff)]
    unfold leapsBefore
    omega
  · rw [if_neg (fun hh => hiff (hle.mp hh))]
    unfold leapsBefore
    omega

theorem dayNumber_nextDate (D : LocalDate) (hD : ValidDate D) :
    dayNumber (nextDate D) = dayNumber D + 1 := by
  obtain ⟨hy, hm1, hm12, hd1, hdim⟩ := hD
  unfold nextDate
  by_cases h1 : D.day < daysInMonth D.year D.month
  · rw [if_pos h1]
    unfold dayNumber
    dsimp only
    omega
  · rw [if_neg h1]
    have hdeq : D.day = monthLength (isLeap D.year) D.month := by
      have : daysInMonth D.year D.month = monthLength (isLeap D.year) D.month := rfl
      omega
    by_cases h2 : D.month < 12
    · rw [if_pos h2]
      unfold dayNumber
      dsimp only
      have hstep : daysBeforeMonth (isLeap D.year) (D.month + 1) =
          daysBeforeMonth (isLeap D.year) D.month + monthLength (isLeap D.year) D.month := rfl
      omega
    · rw [if_neg h2]
      have hm : D.month = 12 := by omega
      have hd31 : D.day = 31 := by
        rw [hm] at hdeq
        have h31 : monthLength (isLeap D.year) 12 = 31 := rfl
        omega
      unfold dayNumber
      dsimp only
      rw [leapsBefore_succ]
      have e1 : daysBeforeMonth (isLeap (D.year + 1)) 1 = 0 := by
        show daysBeforeMonth (isLeap (D.year + 1)) 0 + monthLength (isLeap (D.year + 1)) 0 = 0
        cases isLeap (D.year + 1) <;> rfl
      rw [e1, hm]
      cases hb : isLeap D.year with
      | false =>
        have e2 : daysBeforeMonth false 12 = 334 := by decide
        rw [e2]
        simp only [Bool.false_eq_true, if_false]
        omega
      | true =>
        have e2 : daysBeforeMonth true 12 = 335 := by decide
        rw [e2]
        simp only [if_true]
        omega

theorem nextDate_valid (D : LocalDate) (hD : ValidDate D) : ValidDate (nextDate D) := by
  obtain ⟨hy, hm1, hm12, hd1, hdim⟩ := hD
  unfold nextDate
  by_cases h1 : D.day < daysInMonth D.year D.month
  · rw [if_pos h1]
    exact ⟨hy, hm1, hm12, by show 1 ≤ D.day + 1; omega,
      by show D.day + 1 ≤ daysInMonth D.year D.month; omega⟩
  · rw [if_neg h1]
    by_cases h2 : D.month < 12
    · rw [if_pos h2]
      refine ⟨hy, by show 1 ≤ D.month + 1; omega, by show D.month + 1 ≤ 12; omega,
        by show (1 : Nat) ≤ 1; omega, ?_⟩
      show 1 ≤ daysInMonth D.year (D.month + 1)
      exact monthLength_pos _ _ (by omega) (by omega)
    · rw [if_neg h2]
      refine ⟨by show 1 ≤ D.year + 1; omega, by show (1 : Nat) ≤ 1; omega,
        by show (1 : Nat) ≤ 12; omega, by show (1 : Nat) ≤ 1; omega, ?_⟩
      show 1 ≤ daysInMonth (D.year + 1) 1
      exact (by omega : (1 : Nat) ≤ 31)

theorem prevDate_nextDate (D : LocalDate) (hD : ValidDate D) :
    prevDate (nextDate D) = D := by
  obtain ⟨hy, hm1, hm12, hd1, hdim⟩ := hD
  unfold nextDate prevDate
  by_cases h1 : D.day < daysInMonth D.year D.month
  · rw [if_pos h1]
    dsimp only
    rw [if_pos (by omega : 2 ≤ D.day + 1)]
    rw [show D.day + 1 - 1 = D.day from by omega]
  · rw [if_neg h1]
    have hdeq : D.day = daysInMonth D.year D.month := by omega
    by_cases h2 : D.month < 12
    · rw [if_pos h2]
      dsimp only
      rw [if_neg (by omega : ¬ 2 ≤ 1), if_pos (by omega : 2 ≤ D.month + 1)]
      rw [show D.month + 1 - 1 = D.month from by omega, ← hdeq]
    · rw [if_neg h2]
      have hm : D.month = 12 := by omega
      have hd31 : D.day = 31 := by
        rw [hm] at hdeq
        have h31 : daysInMonth D.year 12 = 31 := rfl
        omega
      rw [if_neg (by omega : ¬ 2 ≤ 1), if_neg (by omega : ¬ 2 ≤ 1)]
      rw [show D.year + 1 - 1 = D.year from by omega, ← hd31, ← hm]

/-! ## Formatted-date distinctness -/

theorem pad2_data_length (n : Nat) (h : n < 100) : (pad2 n).data.length = 2 := by
  have hall : ∀ k, k < 100 → (pad2 k).data.length = 2 := by decide
  exact hall n h

theorem formatDate_data_reverse (D : LocalDate) :
    (formatDate D).data.reverse =
      revTail D.month D.day ++ '-' :: (toString D.year).data.reverse := by
  unfold formatDate revTail
  rw [String.data_append, String.data_append, String.data_append]
  have hdash : ("-" : String).data = ['-'] := rfl
  rw [hdash]
  simp [List.reverse_append]

theorem revTail_length (m d : Nat) (hm : m < 100) (hd : d < 100) :
    (revTail m d).length = 5 := by
  unfold revTail
  simp [pad2_data_length m hm, pad2_data_length d hd]

theorem revTail_day_ne :
    ∀ m < 13, ∀ d < 32, 1 ≤ m → 2 ≤ d → revTail m (d - 1) ≠ revTail m d := by decide

theorem revTail_month_ne :
    ∀ m < 13, ∀ ld < 32, 2 ≤ m → 1 ≤ ld → revTail (m - 1) ld ≠ revTail m 1 := by decide

theorem revTail_year_ne : revTail 12 31 ≠ revTail 1 1 := by decide

theorem formatDate_ne_of_revTail_ne {D E : LocalDate}
    (hD : D.month < 100 ∧ D.day < 100) (hE : E.month < 100 ∧ E.day < 100)
    (hne : revTail D.month D.day ≠ revTail E.month E.day) :
    formatDate D ≠ formatDate E := by
  intro heq
  apply hne
  have hdata : (formatDate D).data.reverse = (formatDate E).data.reverse := by rw [heq]
  rw [formatDate_data_reverse, formatDate_data_reverse] at hdata
  have hlen : (revTail D.month D.day).length = (revTail E.month E.day).length := by
    rw [revTail_length _ _ hD.1 hD.2, revTail_length _ _ hE.1 hE.2]
  exact (List.append_inj hdata hlen).1

theorem formatDate_prevDate_ne (D : LocalDate) (hD : ValidDate D) :
    formatDate (prevDate D) ≠ formatDate D := by
  obtain ⟨hy, hm1, hm12, hd1, hdim⟩ := hD
  have hdle : D.day ≤ 31 := le_trans hdim (monthLength_le_31 _ _)
  unfold prevDate
  by_cases h1 : 2 ≤ D.day
  · rw [if_pos h1]
    refine formatDate_ne_of_revTail_ne ⟨by dsimp only; omega, by dsimp only; omega⟩
      ⟨by omega, by omega⟩ ?_
    dsimp only
    exact revTail_day_ne D.month (by omega) D.day (by omega) hm1 h1
  · rw [if_neg h1]
    have hd : D.day = 1 := by omega
    by_cases h2 : 2 ≤ D.month
    · rw [if_pos h2]
      have hldle : daysInMonth D.year (D.month - 1) ≤ 31 := monthLength_le_31 _ _
      have hldpos : 1 ≤ daysInMonth D.year (D.month - 1) :=
        monthLength_pos _ _ (by omega) (by omega)
      refine formatDate_ne_of_revTail_ne ⟨by dsimp only; omega, by dsimp only; omega⟩
        ⟨by omega, by omega⟩ ?_
      dsimp only
      rw [hd]
      exact revTail_month_ne D.month (by omega) (daysInMonth D.year (D.month - 1))
        (by omega) h2 (by omega)
    · rw [if_neg h2]
      have hm : D.month = 1 := by omega
      refine formatDate_ne_of_revTail_ne ⟨by dsimp only; omega, by dsimp only; omega⟩
        ⟨by omega, by omega⟩ ?_
      dsimp only
      rw [hm, hd]
      exact revTail_year_ne

/-! ## C4 -/

theorem getDisciplineDay_inWindow (D : LocalDate) (hD : ValidDate D) (t : LocalInstant)
    (ht : inWindow D t) : getDisciplineDay t = formatDate D := by
  rcases ht with ⟨hdate, hge, _⟩ | ⟨hdate, hlt⟩
  · unfold getDisciplineDay
    rw [if_neg (by omega : ¬ t.hour < RESET_HOUR), hdate]
  · unfold getDisciplineDay
    rw [if_pos hlt, hdate, prevDate_nextDate D hD]

/-- C4: `getDisciplineDay` returns the local calendar date when the local
hour is in [4,24) and the previous calendar date when it is in [0,4); the
returned id is constant across each [04:00, next 04:00) window and changes
exactly at the boundary. -/
theorem getDisciplineDay_spec :
    (∀ t : LocalInstant,
      (RESET_HOUR ≤ t.hour → getDisciplineDay t = formatDate t.date) ∧
      (t.hour < RESET_HOUR → getDisciplineDay t = formatDate (prevDate t.date))) ∧
    (∀ D : LocalDate, ValidDate D → ∀ t1 t2 : LocalInstant,
      inWindow D t1 → inWindow D t2 → getDisciplineDay t1 = getDisciplineDay t2) ∧
    (∀ D : LocalDate, ValidDate D →
      getDisciplineDay { date := D, hour := 3, minute := 59, second := 59, ms := 999 } ≠
        getDisciplineDay { date := D, hour := RESET_HOUR, minute := 0, second := 0, ms := 0 }) := by
  refine ⟨fun t => ⟨fun h => ?_, fun h => ?_⟩, fun D hD t1 t2 h1 h2 => ?_, fun D hD => ?_⟩
  · unfold getDisciplineDay
    rw [if_neg (by omega)]
  · unfold getDisciplineDay
    rw [if_pos h]
  · rw [getDisciplineDay_inWindow D hD t1 h1, getDisciplineDay_inWindow D hD t2 h2]
  · unfold getDisciplineDay
    rw [if_pos (by decide : (3 : Nat) < RESET_HOUR),
      if_neg (by decide : ¬ (RESET_HOUR : Nat) < RESET_HOUR)]
    exact formatDate_prevDate_ne D hD

/-- Witness for C4 at concrete instants around the 2026-02-10 boundary. -/
theorem getDisciplineDay_spec_witness :
    getDisciplineDay ⟨⟨2026, 2, 10⟩, 3, 30, 0, 0⟩ = formatDate (prevDate ⟨2026, 2, 10⟩) ∧
    getDisciplineDay ⟨⟨2026, 2, 10⟩, 3, 30, 0, 0⟩ = "2026-02-09" ∧
    getDisciplineDay ⟨⟨2026, 2, 10⟩, 4, 1, 0, 0⟩ = formatDate ⟨2026, 2, 10⟩ ∧
    getDisciplineDay ⟨⟨2026, 2, 9⟩, 4, 0, 0, 0⟩ =
      getDisciplineDay ⟨⟨2026, 2, 10⟩, 3, 59, 59, 999⟩ ∧
    getDisciplineDay ⟨⟨2026, 2, 10⟩, 3, 59, 59, 999⟩ ≠
      getDisciplineDay ⟨⟨2026, 2, 10⟩, 4, 0, 0, 0⟩ := by
  refine ⟨(getDisciplineDay_spec.1 _).2 (by decide), by decide,
    (getDisciplineDay_spec.1 _).1 (by decide), ?_,
    getDisciplineDay_spec.2.2 ⟨2026, 2, 10⟩ (by decide)⟩
  exact getDisciplineDay_spec.2.1 ⟨2026, 2, 9⟩ (by decide) _ _
    (Or.inl ⟨rfl, by decide, by decide⟩) (Or.inr ⟨by decide, by decide⟩)

/-! ## C8 -/

/-- C8: `msUntilNextReset` returns the (positive, at most 24h) distance
from `now` to the next wall-clock instant with hour 4, minute 0, second 0
that is strictly after `now`. -/
theorem msUntilNextReset_spec (now : LocalInstant) (hv : ValidInstant now) :
    0 < msUntilNextReset now ∧
    msUntilNextReset now ≤ 86400000 ∧
    ∃ B : LocalInstant, ValidInstant B ∧
      B.hour = RESET_HOUR ∧ B.minute = 0 ∧ B.second = 0 ∧ B.ms = 0 ∧
      (epochMs B : Int) = epochMs now + msUntilNextReset now ∧
      ∀ C : LocalInstant, ValidInstant C →
        C.hour = RESET_HOUR → C.minute = 0 → C.second = 0 → C.ms = 0 →
        epochMs now < epochMs C → epochMs B ≤ epochMs C := by
  obtain ⟨hdv, hh, hmin, hsec, hms⟩ := hv
  have htod_lt : timeOfDayMs now < 86400000 := by
    unfold timeOfDayMs
    omega
  have hepoch_now : epochMs now = dayNumber now.date * 86400000 + timeOfDayMs now := rfl
  have hepochC : ∀ C : LocalInstant, C.hour = RESET_HOUR → C.minute = 0 → C.second = 0 →
      C.ms = 0 → epochMs C = dayNumber C.date * 86400000 + 14400000 := by
    intro C h1 h2 h3 h4
    unfold epochMs timeOfDayMs
    rw [h1, h2, h3, h4]
    norm_num [RESET_HOUR]
  have hB0 : epochMs { date := now.date, hour := RESET_HOUR, minute := 0, second := 0, ms := 0 } =
      dayNumber now.date * 86400000 + 14400000 := hepochC _ rfl rfl rfl rfl
  have hB1 : epochMs { date := nextDate now.date, hour := RESET_HOUR, minute := 0, second := 0, ms := 0 } = (dayNumber now.date + 1) * 86400000 + 14400000 := by
    rw [hepochC _ rfl rfl rfl rfl]
    rw [show ({ date := nextDate now.date, hour := RESET_HOUR, minute := 0, second := 0, ms := 0 } : LocalInstant).date = nextDate now.date from rfl]
    rw [dayNumber_nextDate now.date hdv]
  have hval : msUntilNextReset now =
      (epochMs (if epochMs { date := now.date, hour := RESET_HOUR, minute := 0, second := 0, ms := 0 } ≤ epochMs now
        then { date := nextDate now.date, hour := RESET_HOUR, minute := 0, second := 0, ms := 0 }
        else { date := now.date, hour := RESET_HOUR, minute := 0, second := 0, ms := 0 } : LocalInstant) : Int) - epochMs now := rfl
  by_cases hcmp : epochMs { date := now.date, hour := RESET_HOUR, minute := 0, second := 0, ms := 0 } ≤ epochMs now
  · have htod_ge : 14400000 ≤ timeOfDayMs now := by
      rw [hB0, hepoch_now] at hcmp
      omega
    rw [hval, if_pos hcmp, hB1, hepoch_now]
    refine ⟨by push_cast; omega, by push_cast; omega,
      { date := nextDate now.date, hour := RESET_HOUR, minute := 0, second := 0, ms := 0 },
      ⟨nextDate_valid now.date hdv, by show (RESET_HOUR : Nat) < 24; decide,
        by show (0 : Nat) < 60; decide, by show (0 : Nat) < 60; decide,
        by show (0 : Nat) < 1000; decide⟩,
      rfl, rfl, rfl, rfl, ?_, ?_⟩
    · rw [hB1]
      push_cast
      ring
    · intro C hCv h1 h2 h3 h4 hgt
      rw [hB1, hepochC C h1 h2 h3 h4]
      rw [hepochC C h1 h2 h3 h4] at hgt
      omega
  · have htod_lt4 : timeOfDayMs now < 14400000 := by
      rw [hB0, hepoch_now] at hcmp
      omega
    rw [hval, if_neg hcmp, hB0, hepoch_now]
    refine ⟨by push_cast; omega, by push_cast; omega,
      { date := now.date, hour := RESET_HOUR, minute := 0, second := 0, ms := 0 },
      ⟨hdv, by show (RESET_HOUR : Nat) < 24; decide, by show (0 : Nat) < 60; decide,
        by show (0 : Nat) < 60; decide, by show (0 : Nat) < 1000; decide⟩,
      rfl, rfl, rfl, rfl, ?_, ?_⟩
    · rw [hB0]
      push_cast
      ring
    · intro C hCv h1 h2 h3 h4 hgt
      rw [hB0, hepochC C h1 h2 h3 h4]
      rw [hepochC C h1 h2 h3 h4] at hgt
      omega

/-- Witness for C8 at 03:30 and 04:00 on 2026-02-10: 30 minutes and a full
24 hours to the next boundary, with the guarantees instantiated. -/
theorem msUntilNextReset_spec_witness :
    msUntilNextReset ⟨⟨2026, 2, 10⟩, 3, 30, 0, 0⟩ = 1800000 ∧
    msUntilNextReset ⟨⟨2026, 2, 10⟩, 4, 0, 0, 0⟩ = 86400000 ∧
    (0 < msUntilNextReset ⟨⟨2026, 2, 10⟩, 3, 30, 0, 0⟩ ∧
      msUntilNextReset ⟨⟨2026, 2, 10⟩, 3, 30, 0, 0⟩ ≤ 86400000 ∧
      ∃ B : LocalInstant, ValidInstant B ∧
        B.hour = RESET_HOUR ∧ B.minute = 0 ∧ B.second = 0 ∧ B.ms = 0 ∧
        (epochMs B : Int) =
          epochMs ⟨⟨2026, 2, 10⟩, 3, 30, 0, 0⟩ +
            msUntilNextReset ⟨⟨2026, 2, 10⟩, 3, 30, 0, 0⟩ ∧
        ∀ C : LocalInstant, ValidInstant C →
          C.hour = RESET_HOUR → C.minute = 0 → C.second = 0 → C.ms = 0 →
          epochMs ⟨⟨2026, 2, 10⟩, 3, 30, 0, 0⟩ < epochMs C →
          epochMs B ≤ epochMs C) := by
  refine ⟨by decide, by decide, msUntilNextReset_spec _ (by decide)⟩

end GrindOS
